import Mathlib

/-!
Verification of the scoped web-crawling and content-persistence pipeline of the
`sjsu_crawler` package (the SJSU LibGuides crawler of the Playwright-MCP-Agent
repository).

The relational schema is embedded directly from `schema.sql`.  The Python
modules `crawler.py`, `extractor.py`, `writer.py` and `db.py` are not part of
the source tree given here (only `SUMMARY_AND_FLOW.md` and the design document
describe them), so those components are modelled from the specification text,
as noted in the doc comment of each such definition.
-/

namespace Crawler

/- ### URL Normalizer -/

/-- Modelled from the spec: `crawler.py`'s URL normalizer is not in the source
tree.  §4.1: "Lower-cases the URL, strips a trailing slash and any fragment."
Lower-casing of one character, as in Lean core's `Char.toLower` (ASCII model of
Python `str.lower`). -/
def lowerData (s : List Char) : List Char := s.map Char.toLower

/-- Modelled from the spec: drop everything from the first `#` on
("strips ... any fragment"). -/
def stripFragData (s : List Char) : List Char := s.takeWhile (fun c => c != '#')

/-- Modelled from the spec: remove the trailing slashes, Python
`str.rstrip` semantics ("strips a trailing slash"). -/
def stripSlashData (s : List Char) : List Char :=
  (s.reverse.dropWhile (fun c => c == '/')).reverse

/-- Modelled from the spec: the character-level normalizer. -/
def normalizeData (s : List Char) : List Char :=
  stripSlashData (stripFragData (lowerData s))

/-- Modelled from the spec: `normalize(url) -> canonical_url` (§4.1), the pure
function used for identity and scope checks. -/
def normalize (u : String) : String := String.mk (normalizeData u.data)

/-- Character-level model of Python's `str.startswith`, used for the
scope check. -/
def strStartsWith (s pre : String) : Bool := pre.data.isPrefixOf s.data

/- ### Data model (models.py is described by §3 of the design document) -/

/-- Modelled from the spec: a heading entry, `{level ∈ [1..4], text}` (§3). -/
structure Heading where
  level : Nat
  text : String
deriving DecidableEq

/-- Modelled from the spec: a content "box" section, `{title, text, links}` (§3). -/
structure PageSection where
  title : String
  text : String
  links : List String
deriving DecidableEq

/-- Modelled from the spec: an image entry, `{src, alt}` (§3). -/
structure ImageRef where
  src : String
  alt : String
deriving DecidableEq

/-- Modelled from the spec: `PageRecord` (§3), one observation of one page at
one crawl time; `models.py` itself is not in the source tree.  `crawled_at` is
an abstract timestamp. -/
structure PageRecord where
  url : String
  parent_url : Option String
  depth : Nat
  crawled_at : Nat
  title : Option String
  meta_description : Option String
  full_text : String
  headings : List Heading
  sections : List PageSection
  paragraphs : List String
  tables : List (List (List String))
  links_out : List String
  images : List ImageRef
  status : String
  error_msg : Option String
deriving DecidableEq

/-- Modelled from the spec: the immutable crawl configuration (§3, §6).
`scope` is the source's `scope_prefix` key; `max_depth = -1` means unlimited.
`polite_delay`, `headless` and the sink toggles do not affect the record
sequence and are omitted. -/
structure Config where
  start_url : String
  scope : String
  max_depth : Int
  max_pages : Nat
deriving DecidableEq

/-- Modelled from the spec: what the extractor reads off one successfully
loaded page (§4.3).  A value of this type stands for the rendered page handle;
the rendering capability itself is an external collaborator (§6). -/
structure PageContent where
  title : Option String
  meta_description : Option String
  full_text : String
  headings : List Heading
  sections : List PageSection
  paragraphs : List String
  tables : List (List (List String))
  links_out : List String
  images : List ImageRef
deriving DecidableEq

/- ### Traversal engine (crawler.py is described by §4.2 of the design document) -/

/-- A frontier entry `(url, parent_url, depth)` (§3). -/
abbrev Entry := String × Option String × Nat

/-- Modelled from the spec: the traversal engine's state — frontier stack,
visited set, processed-page counter, and the record sequence emitted so far
(§4.2). -/
structure CrawlState where
  stack : List Entry
  visited : List String
  counter : Nat
  emitted : List PageRecord
deriving DecidableEq

/-- Modelled from the spec: the `status=ok` record the extractor produces for a
successfully loaded page (§4.3 step 9: `crawled_at` stamped, `status = ok`). -/
def okRecord (content : PageContent) (u : String) (p : Option String) (d now : Nat) : PageRecord :=
  { url := u, parent_url := p, depth := d, crawled_at := now,
    title := content.title, meta_description := content.meta_description,
    full_text := content.full_text, headings := content.headings,
    sections := content.sections, paragraphs := content.paragraphs,
    tables := content.tables, links_out := content.links_out,
    images := content.images, status := "ok", error_msg := none }

/-- Modelled from the spec: the record emitted on a page-load failure —
`status=error`, `error_msg` set, all content fields empty (§4.2 step c). -/
def errRecord (u : String) (p : Option String) (d now : Nat) (msg : String) : PageRecord :=
  { url := u, parent_url := p, depth := d, crawled_at := now,
    title := none, meta_description := none, full_text := "", headings := [],
    sections := [], paragraphs := [], tables := [], links_out := [], images := [],
    status := "error", error_msg := some msg }

/-- Modelled from the spec: children pushed for a processed entry — each link
of `links_out` whose normalized form starts with the scope prefix and is not
yet visited, pushed as `(link, u, d+1)` (§4.2 step d). -/
def pushChildren (cfg : Config) (visited : List String) (u : String) (d : Nat)
    (links : List String) : List Entry :=
  (links.filter (fun l =>
    strStartsWith (normalize l) cfg.scope && decide (normalize l ∉ visited))).map
      (fun l => (l, some u, d + 1))

/-- Modelled from the spec: `max_depth == -1` (unlimited) or `d < max_depth`
(§4.2 step d). -/
def depthAllows (cfg : Config) (d : Nat) : Bool :=
  cfg.max_depth == -1 || decide ((d : Int) < cfg.max_depth)

/-- Modelled from the spec: the successor state after a successful page load —
mark visited, emit the ok record, bump the counter, push in-scope unvisited
children (§4.2 steps b-d). -/
def okNext (cfg : Config) (now : Nat) (u : String) (p : Option String) (d : Nat)
    (rest : List Entry) (visited : List String) (counter : Nat)
    (emitted : List PageRecord) (content : PageContent) : CrawlState :=
  { stack := (if depthAllows cfg d then
        pushChildren cfg (normalize u :: visited) u d content.links_out
      else []) ++ rest,
    visited := normalize u :: visited,
    counter := counter + 1,
    emitted := emitted ++ [okRecord content u p d now] }

/-- Modelled from the spec: the successor state after a failed page load —
mark visited, emit the error record, enqueue no children, keep the counter
(§4.2 step c). -/
def errNext (now : Nat) (u : String) (p : Option String) (d : Nat)
    (rest : List Entry) (visited : List String) (counter : Nat)
    (emitted : List PageRecord) : CrawlState :=
  { stack := rest, visited := normalize u :: visited, counter := counter,
    emitted := emitted ++ [errRecord u p d now "navigation error"] }

/-- Modelled from the spec: the crawl loop of §4.2 — while the stack is
non-empty and the counter is below `max_pages`: pop, skip if visited, load the
page via the external rendering capability `world` (`none` = navigation
error/timeout), emit a record, push children on success.  `fuel` bounds the
number of iterations only; every claim proved below holds for every fuel. -/
def crawlLoop (cfg : Config) (world : String → Option PageContent) (now : Nat) :
    Nat → CrawlState → CrawlState
  | 0, s => s
  | fuel + 1, s =>
    match s.stack with
    | [] => s
    | (u, p, d) :: rest =>
      if s.counter < cfg.max_pages then
        if normalize u ∈ s.visited then
          crawlLoop cfg world now fuel { s with stack := rest }
        else
          match world u with
          | some content =>
              crawlLoop cfg world now fuel
                (okNext cfg now u p d rest s.visited s.counter s.emitted content)
          | none =>
              crawlLoop cfg world now fuel
                (errNext now u p d rest s.visited s.counter s.emitted)
      else s

/-- Modelled from the spec: one crawl run — start from
`(start_url, absent, 0)`, empty visited set, zero counter, and return the
emitted record sequence (§4.2 step 1). -/
def crawl (cfg : Config) (world : String → Option PageContent) (now fuel : Nat) :
    List PageRecord :=
  (crawlLoop cfg world now fuel
    { stack := [(cfg.start_url, none, 0)], visited := [], counter := 0, emitted := [] }).emitted

/-- Count of `status=ok` records in a record sequence. -/
def okCount (rs : List PageRecord) : Nat := rs.countP (fun r => r.status == "ok")

/- ### Relational upsert sink (db.py is described by §4.5; the table itself is
`schema.sql`, which is in the source tree) -/

/-- One row of the `crawl_pages` table: the `scope_prefix` key column (named
`scope` here) plus the record providing `url` and every non-key column. -/
structure DbRow where
  scope : String
  page : PageRecord
deriving DecidableEq

/-- The primary key `(scope_prefix, url)` of a row. -/
def rowKey (row : DbRow) : String × String := (row.scope, row.page.url)

/-- SQL-equality test of a row's primary key against `(sp, u)`. -/
def keyMatches (sp u : String) (row : DbRow) : Bool :=
  decide (row.scope = sp ∧ row.page.url = u)

/-- Modelled from the spec: `db.py`'s `upsert(conn, record, scope_prefix)` —
`INSERT ... ON CONFLICT (scope_prefix, url) DO UPDATE SET ...` (§4.5,
SUMMARY_AND_FLOW step 5): insert a new row keyed by `(scope_prefix, url)`, or
overwrite every non-key column of the existing row with the new record's
values.  The table is a list of rows. -/
def upsert (t : List DbRow) (sp : String) (r : PageRecord) : List DbRow :=
  if t.any (keyMatches sp r.url) then
    t.map (fun row => if keyMatches sp r.url row then ⟨sp, r⟩ else row)
  else t ++ [⟨sp, r⟩]

/-- The durable-storage invariant: the pair `(scope_prefix, url)` is unique in
the table. -/
def UniqueKeys (t : List DbRow) : Prop := (t.map rowKey).Nodup

/-- Modelled from the spec: one crawl run routed to the relational sink —
upsert every emitted record in order (§4.6). -/
def runUpsert (t : List DbRow) (sp : String) : List PageRecord → List DbRow
  | [] => t
  | r :: rs => runUpsert (upsert t sp r) sp rs

/-- A key is present in the table. -/
def HasKey (t : List DbRow) (k : String × String) : Prop :=
  ∃ row ∈ t, rowKey row = k

/- ### Incremental document sink (writer.py is described by §4.4) -/

/-- Modelled from the spec: the stream of the document sink, at the
granularity the design talks about — the array's opening and closing
delimiters, the separator, and one atomically-serialized record (§4.4: a
`write` appends "a separator (unless this is the first record) followed by the
serialized record"). -/
inductive JTok where
  | lbrack
  | rbrack
  | comma
  | record (r : PageRecord)
deriving DecidableEq

/-- Modelled from the spec: the document sink handle — the stream contents so
far plus the boolean flag tracking whether a record has already been written
(§4.4). -/
structure DocHandle where
  content : List JTok
  wrote_any : Bool
deriving DecidableEq

/-- Modelled from the spec: `open(path)` writes the opening delimiter of an
array (§4.4). -/
def docOpen : DocHandle := ⟨[JTok.lbrack], false⟩

/-- Modelled from the spec: `writer.py`'s `write_one_record` — a separator
unless this is the first record, then the serialized record, then a flush
(§4.4, SUMMARY_AND_FLOW step 4). -/
def write_one_record (h : DocHandle) (r : PageRecord) : DocHandle :=
  ⟨h.content ++ (if h.wrote_any then [JTok.comma] else []) ++ [JTok.record r], true⟩

/-- Modelled from the spec: `close(handle)` writes the closing delimiter
(§4.4). -/
def docClose (h : DocHandle) : List JTok := h.content ++ [JTok.rbrack]

/-- `open` followed by the given sequence of `write` calls. -/
def writeAll (h : DocHandle) : List PageRecord → DocHandle
  | [] => h
  | r :: rs => writeAll (write_one_record h r) rs

/-- Parser for `(separator record)* closing-delimiter`, the tail of a
serialized array. -/
def parseTail : List JTok → Option (List PageRecord)
  | [JTok.rbrack] => some []
  | JTok.comma :: JTok.record r :: ts => (parseTail ts).map (fun rs => r :: rs)
  | _ => none

/-- Parser for a serialized JSON array of records. -/
def parseArray : List JTok → Option (List PageRecord)
  | [JTok.lbrack, JTok.rbrack] => some []
  | JTok.lbrack :: JTok.record r :: ts => (parseTail ts).map (fun rs => r :: rs)
  | _ => none

/-- The tokens a sequence of writes appends once some record has already been
written: separator then record, for each record. -/
def encodeTail : List PageRecord → List JTok
  | [] => []
  | r :: rs => JTok.comma :: JTok.record r :: encodeTail rs

/- ### Relational schema, embedded from schema.sql (in the source tree) -/

/-- The SQL column types appearing in `schema.sql`, plus `json`, which is the
type the design document states for the six document-valued columns. -/
inductive SqlType where
  | text
  | int
  | timestamptz
  | jsonb
  | json
deriving DecidableEq

/-- One column declaration: name, type, and whether it is declared NOT NULL. -/
structure ColumnDef where
  name : String
  ctype : SqlType
  notNull : Bool
deriving DecidableEq

/-- The sixteen columns of `CREATE TABLE IF NOT EXISTS crawl_pages`, in order,
embedded from `schema.sql`. -/
def crawl_pages_columns : List ColumnDef :=
  [⟨"scope_prefix", SqlType.text, true⟩,
   ⟨"url", SqlType.text, true⟩,
   ⟨"parent_url", SqlType.text, false⟩,
   ⟨"depth", SqlType.int, true⟩,
   ⟨"crawled_at", SqlType.timestamptz, true⟩,
   ⟨"title", SqlType.text, false⟩,
   ⟨"meta_description", SqlType.text, false⟩,
   ⟨"full_text", SqlType.text, false⟩,
   ⟨"headings", SqlType.jsonb, false⟩,
   ⟨"sections", SqlType.jsonb, false⟩,
   ⟨"paragraphs", SqlType.jsonb, false⟩,
   ⟨"tables", SqlType.jsonb, false⟩,
   ⟨"links_out", SqlType.jsonb, false⟩,
   ⟨"images", SqlType.jsonb, false⟩,
   ⟨"status", SqlType.text, false⟩,
   ⟨"error_msg", SqlType.text, false⟩]

/-- `PRIMARY KEY (scope_prefix, url)`, embedded from `schema.sql`. -/
def crawl_pages_primary_key : List String := ["scope_prefix", "url"]

/-- The two secondary indexes of `schema.sql`:
`idx_crawl_pages_scope_depth` on `(scope_prefix, depth)` and
`idx_crawl_pages_scope_parent` on `(scope_prefix, parent_url)`. -/
def crawl_pages_indexes : List (List String) :=
  [["scope_prefix", "depth"], ["scope_prefix", "parent_url"]]

/-- The column set the design document states for the table (§6), with the
types as written there: TEXT, INT, TIMESTAMPTZ and JSON.  Kept for comparison
with the column set embedded from `schema.sql`. -/
def spec_stated_columns : List (String × SqlType) :=
  [("scope_prefix", SqlType.text), ("url", SqlType.text),
   ("parent_url", SqlType.text), ("depth", SqlType.int),
   ("crawled_at", SqlType.timestamptz), ("title", SqlType.text),
   ("meta_description", SqlType.text), ("full_text", SqlType.text),
   ("headings", SqlType.json), ("sections", SqlType.json),
   ("paragraphs", SqlType.json), ("tables", SqlType.json),
   ("links_out", SqlType.json), ("images", SqlType.json),
   ("status", SqlType.text), ("error_msg", SqlType.text)]

/-- A candidate row for insertion: one optional value per column (`none` is
SQL NULL); column values are opaque strings.  The schema accepts the row iff
it has one value slot per column and every NOT NULL column's slot is filled. -/
def acceptsRow (cols : List ColumnDef) (vals : List (Option String)) : Bool :=
  vals.length == cols.length &&
    (cols.zip vals).all (fun cv => !cv.1.notNull || cv.2.isSome)

/-- A row for the root record: `parent_url` NULL, the error column NULL, every
other column filled. -/
def exampleRootRow : List (Option String) :=
  [some "https://library.sjsu.edu", some "https://library.sjsu.edu/research-guides",
   none, some "0", some "2024-01-01T00:00:00Z", some "Research Guides", some "meta",
   some "text", some "[]", some "[]", some "[]", some "[]", some "[]", some "[]",
   some "ok", none]

/- ### Concrete scenarios used by counterexamples and witnesses -/

/-- A page with no content and no outgoing links. -/
def contentEmpty : PageContent :=
  { title := none, meta_description := none, full_text := "", headings := [],
    sections := [], paragraphs := [], tables := [], links_out := [], images := [] }

/-- A root page with three in-scope outgoing links. -/
def contentThreeLinks : PageContent :=
  { title := some "a", meta_description := none, full_text := "root", headings := [],
    sections := [], paragraphs := [], tables := [],
    links_out := ["https://ex.com/b", "https://ex.com/c", "https://ex.com/d"],
    images := [] }

/-- Budget-two configuration whose start page is in scope. -/
def cfg3 : Config :=
  { start_url := "https://ex.com/a", scope := "https://ex.com",
    max_depth := -1, max_pages := 2 }

/-- A site where only the start page loads; every other page times out. -/
def world3 (u : String) : Option PageContent :=
  if u = "https://ex.com/a" then some contentThreeLinks else none

/-- A configuration whose start URL does not lie under the scope prefix. -/
def cfg4 : Config :=
  { start_url := "https://other.com/x", scope := "https://ex.com",
    max_depth := -1, max_pages := 5 }

/-- A site where every page load fails. -/
def worldNone (_ : String) : Option PageContent := none

/-- A site where every page loads and is empty. -/
def worldEmpty (_ : String) : Option PageContent := some contentEmpty

/-- An in-scope configuration with budget five. -/
def cfgW : Config :=
  { start_url := "https://ex.com/a", scope := "https://ex.com",
    max_depth := -1, max_pages := 5 }

/-- A sample ok record (the root record of `cfgW` under `worldEmpty`). -/
def sampleRec : PageRecord := okRecord contentEmpty "https://ex.com/a" none 0 0

/-- A later observation of the same page: an error record at a later
timestamp. -/
def sampleRecErr : PageRecord := errRecord "https://ex.com/a" none 0 7 "timeout"

theorem charOfNat_toNat (n : Nat) (h : n.isValidChar) : (Char.ofNat n).toNat = n := by
  unfold Char.ofNat
  rw [dif_pos h]
  rfl

theorem toLower_fixed (c : Char) : c.toLower.toLower = c.toLower := by
  unfold Char.toLower
  by_cases h : c.toNat ≥ 65 ∧ c.toNat ≤ 90
  · rw [if_pos h]
    have hv : (c.toNat + 32).isValidChar := by
      left
      omega
    rw [charOfNat_toNat _ hv]
    rw [if_neg (by omega)]
  · rw [if_neg h, if_neg h]

theorem lowerData_idem (s : List Char) : lowerData (lowerData s) = lowerData s := by
  unfold lowerData
  rw [List.map_map]
  congr 1
  funext c
  exact toLower_fixed c

theorem mem_lowerData_fixed {s : List Char} {c : Char} (h : c ∈ lowerData s) :
    c.toLower = c := by
  unfold lowerData at h
  obtain ⟨x, _, rfl⟩ := List.mem_map.mp h
  exact toLower_fixed x

theorem stripFragData_subset (s : List Char) : stripFragData s ⊆ s :=
  (List.takeWhile_sublist _).subset

theorem stripSlashData_subset (s : List Char) : stripSlashData s ⊆ s := by
  intro c hc
  unfold stripSlashData at hc
  rw [List.mem_reverse] at hc
  have := (List.dropWhile_sublist (l := s.reverse) (p := fun c => c == '/')).subset hc
  rwa [List.mem_reverse] at this

theorem map_eq_self_of_fixed {α : Type} {f : α → α} :
    ∀ {l : List α}, (∀ c ∈ l, f c = c) → l.map f = l
  | [], _ => rfl
  | c :: l, h => by
      simp only [List.map_cons]
      rw [h c (List.mem_cons_self _ _), map_eq_self_of_fixed (fun x hx => h x (List.mem_cons_of_mem _ hx))]

theorem takeWhile_eq_self_of {α : Type} {p : α → Bool} :
    ∀ {l : List α}, (∀ c ∈ l, p c = true) → l.takeWhile p = l
  | [], _ => rfl
  | c :: l, h => by
      simp only [List.takeWhile_cons]
      rw [h c (List.mem_cons_self _ _)]
      simp only [if_true]
      rw [takeWhile_eq_self_of (fun x hx => h x (List.mem_cons_of_mem _ hx))]

theorem dropWhile_idem {α : Type} {p : α → Bool} :
    ∀ (l : List α), (l.dropWhile p).dropWhile p = l.dropWhile p
  | [] => rfl
  | c :: l => by
      by_cases h : p c = true
      · rw [List.dropWhile_cons_of_pos h]
        exact dropWhile_idem l
      · rw [List.dropWhile_cons_of_neg h, List.dropWhile_cons_of_neg h]

theorem stripSlashData_idem (s : List Char) :
    stripSlashData (stripSlashData s) = stripSlashData s := by
  unfold stripSlashData
  rw [List.reverse_reverse, dropWhile_idem]

theorem mem_stripFragData_ne {s : List Char} {c : Char} (h : c ∈ stripFragData s) :
    (c != '#') = true := by
  unfold stripFragData at h
  exact List.mem_takeWhile_imp (p := fun c => c != '#') h

theorem normalizeData_idem (s : List Char) :
    normalizeData (normalizeData s) = normalizeData s := by
  have hsub : normalizeData s ⊆ lowerData s := by
    intro c hc
    unfold normalizeData at hc
    exact stripFragData_subset _ (stripSlashData_subset _ hc)
  have h1 : lowerData (normalizeData s) = normalizeData s :=
    map_eq_self_of_fixed (fun c hc => mem_lowerData_fixed (hsub hc))
  have h2 : stripFragData (normalizeData s) = normalizeData s := by
    apply takeWhile_eq_self_of
    intro c hc
    have : c ∈ stripFragData (lowerData s) := by
      unfold normalizeData at hc
      exact stripSlashData_subset _ hc
    exact mem_stripFragData_ne this
  show stripSlashData (stripFragData (lowerData (normalizeData s))) = normalizeData s
  rw [h1, h2]
  unfold normalizeData
  exact stripSlashData_idem _

/-- C5: the URL normalizer is idempotent: `normalize(normalize(u)) == normalize(u)`
for every URL string `u`. -/
theorem normalize_idem (u : String) : normalize (normalize u) = normalize u := by
  unfold normalize
  exact congrArg String.mk (normalizeData_idem u.data)


theorem crawlLoop_zero (cfg : Config) (world : String → Option PageContent)
    (now : Nat) (s : CrawlState) : crawlLoop cfg world now 0 s = s := rfl

theorem crawlLoop_inv (cfg : Config) (world : String → Option PageContent)
    (now : Nat) (P : CrawlState → Prop)
    (hskip : ∀ u p d rest visited counter emitted,
      counter < cfg.max_pages → normalize u ∈ visited →
      P ⟨(u, p, d) :: rest, visited, counter, emitted⟩ →
      P ⟨rest, visited, counter, emitted⟩)
    (hok : ∀ u p d rest visited counter emitted content,
      counter < cfg.max_pages → normalize u ∉ visited → world u = some content →
      P ⟨(u, p, d) :: rest, visited, counter, emitted⟩ →
      P (okNext cfg now u p d rest visited counter emitted content))
    (herr : ∀ u p d rest visited counter emitted,
      counter < cfg.max_pages → normalize u ∉ visited → world u = none →
      P ⟨(u, p, d) :: rest, visited, counter, emitted⟩ →
      P (errNext now u p d rest visited counter emitted)) :
    ∀ fuel s, P s → P (crawlLoop cfg world now fuel s) := by
  intro fuel
  induction fuel with
  | zero =>
      intro s hs
      exact hs
  | succ n ih =>
      rintro ⟨stack, visited, counter, emitted⟩ hs
      cases stack with
      | nil => exact hs
      | cons e rest =>
          obtain ⟨u, p, d⟩ := e
          by_cases hc : counter < cfg.max_pages
          · by_cases hv : normalize u ∈ visited
            · have : crawlLoop cfg world now (n + 1) ⟨(u, p, d) :: rest, visited, counter, emitted⟩
                  = crawlLoop cfg world now n ⟨rest, visited, counter, emitted⟩ := by
                simp [crawlLoop, hc, hv]
              rw [this]
              exact ih _ (hskip u p d rest visited counter emitted hc hv hs)
            · cases hw : world u with
              | some content =>
                  have : crawlLoop cfg world now (n + 1) ⟨(u, p, d) :: rest, visited, counter, emitted⟩
                      = crawlLoop cfg world now n
                          (okNext cfg now u p d rest visited counter emitted content) := by
                    simp [crawlLoop, hc, hv, hw]
                  rw [this]
                  exact ih _ (hok u p d rest visited counter emitted content hc hv hw hs)
              | none =>
                  have : crawlLoop cfg world now (n + 1) ⟨(u, p, d) :: rest, visited, counter, emitted⟩
                      = crawlLoop cfg world now n
                          (errNext now u p d rest visited counter emitted) := by
                    simp [crawlLoop, hc, hv, hw]
                  rw [this]
                  exact ih _ (herr u p d rest visited counter emitted hc hv hw hs)
          · have : crawlLoop cfg world now (n + 1) ⟨(u, p, d) :: rest, visited, counter, emitted⟩
                = ⟨(u, p, d) :: rest, visited, counter, emitted⟩ := by
              simp [crawlLoop, hc]
            rw [this]
            exact hs

/-- C3 (counterexample): with `max_pages = 2` and a start page whose three
in-scope children all fail to load, the crawl of §4.2 emits four records (one
ok, three error), exceeding `max_pages` — the counter counts only successful
loads, so error records do not count against the budget. -/
theorem total_records_can_exceed_max_pages :
    cfg3.max_pages < (crawl cfg3 world3 0 10).length := by decide

/-- C3 (amended): for every crawl run, the number of `status=ok` records never
exceeds `max_pages`: the loop runs only while the successful-page counter is
below `max_pages`, and the counter is incremented exactly on each successful
page load. -/
theorem ok_records_le_max_pages (cfg : Config) (world : String → Option PageContent)
    (now fuel : Nat) : okCount (crawl cfg world now fuel) ≤ cfg.max_pages := by
  have h := crawlLoop_inv cfg world now
    (fun s => s.counter ≤ cfg.max_pages ∧ s.counter = okCount s.emitted)
    ?hskip ?hok ?herr fuel
    ⟨[(cfg.start_url, none, 0)], [], 0, []⟩ ⟨Nat.zero_le _, rfl⟩
  · unfold crawl
    rw [← h.2]
    exact h.1
  case hskip =>
    intro u p d rest visited counter emitted _ _ hs
    exact hs
  case hok =>
    intro u p d rest visited counter emitted content hc _ _ hs
    refine ⟨hc, ?_⟩
    have : okCount (emitted ++ [okRecord content u p d now]) = okCount emitted + 1 := by
      simp [okCount, List.countP_append, List.countP_cons, okRecord]
    simp only [okNext, this]
    exact congrArg (· + 1) hs.2
  case herr =>
    intro u p d rest visited counter emitted _ _ _ hs
    refine ⟨hs.1, ?_⟩
    have : okCount (emitted ++ [errRecord u p d now "navigation error"]) = okCount emitted := by
      simp [okCount, List.countP_append, List.countP_cons, errRecord]
    simp only [errNext, this]
    exact hs.2

/-- C4 (counterexample): the start entry is pushed without any scope check, so
when `start_url` does not lie under `scope_prefix` the record emitted for the
start page violates the scope property. -/
theorem emitted_record_can_escape_scope :
    (crawl cfg4 worldNone 0 5).all
      (fun r => strStartsWith (normalize r.url) cfg4.scope) = false := by decide

/-- C4 (amended): provided the normalized start URL starts with the scope
prefix, every record emitted by any crawl run has a normalized URL starting
with the scope prefix — links are only pushed onto the frontier when their
normalized form starts with the scope prefix. -/
theorem crawl_scope_invariant (cfg : Config) (world : String → Option PageContent)
    (now fuel : Nat) (h : strStartsWith (normalize cfg.start_url) cfg.scope = true) :
    ∀ r ∈ crawl cfg world now fuel,
      strStartsWith (normalize r.url) cfg.scope = true := by
  have hinv := crawlLoop_inv cfg world now
    (fun s => (∀ e ∈ s.stack, strStartsWith (normalize e.1) cfg.scope = true) ∧
              (∀ r ∈ s.emitted, strStartsWith (normalize r.url) cfg.scope = true))
    ?hskip ?hok ?herr fuel
    ⟨[(cfg.start_url, none, 0)], [], 0, []⟩ ?hinit
  · intro r hr
    exact hinv.2 r hr
  case hinit =>
    constructor
    · intro e he
      rw [List.mem_singleton] at he
      subst he
      exact h
    · intro r hr
      cases hr
  case hskip =>
    intro u p d rest visited counter emitted _ _ hs
    exact ⟨fun e he => hs.1 e (List.mem_cons_of_mem _ he), hs.2⟩
  case hok =>
    intro u p d rest visited counter emitted content _ _ _ hs
    constructor
    · intro e he
      simp only [okNext] at he
      rcases List.mem_append.mp he with h1 | h2
      · by_cases hd : depthAllows cfg d = true
        · rw [if_pos hd] at h1
          unfold pushChildren at h1
          obtain ⟨l, hl, rfl⟩ := List.mem_map.mp h1
          have hpred := (List.mem_filter.mp hl).2
          rw [Bool.and_eq_true] at hpred
          exact hpred.1
        · rw [if_neg hd] at h1
          cases h1
      · exact hs.1 e (List.mem_cons_of_mem _ h2)
    · intro r hr
      simp only [okNext] at hr
      rcases List.mem_append.mp hr with h1 | h2
      · exact hs.2 r h1
      · rw [List.mem_singleton] at h2
        subst h2
        exact hs.1 (u, p, d) (List.mem_cons_self _ _)
  case herr =>
    intro u p d rest visited counter emitted _ _ _ hs
    constructor
    · intro e he
      simp only [errNext] at he
      exact hs.1 e (List.mem_cons_of_mem _ he)
    · intro r hr
      simp only [errNext] at hr
      rcases List.mem_append.mp hr with h1 | h2
      · exact hs.2 r h1
      · rw [List.mem_singleton] at h2
        subst h2
        exact hs.1 (u, p, d) (List.mem_cons_self _ _)

/-- Witness for the amended C4 theorem at a concrete in-scope configuration. -/
theorem crawl_scope_invariant_witness :
    strStartsWith (normalize (errRecord "https://ex.com/a" none 0 0 "navigation error").url)
      cfgW.scope = true :=
  crawl_scope_invariant cfgW worldNone 0 3 (by decide)
    (errRecord "https://ex.com/a" none 0 0 "navigation error") (by decide)

theorem nodup_append_singleton {α : Type} {l : List α} {a : α}
    (h1 : l.Nodup) (h2 : a ∉ l) : (l ++ [a]).Nodup := by
  rw [List.nodup_append]
  exact ⟨h1, List.nodup_singleton a, by simpa using h2⟩

/-- C6: within one crawl run no two emitted `status=ok` records share the same
normalized URL: a popped entry whose normalized URL is already visited is
discarded without emitting, and the normalized URL is marked visited before
the page is processed. -/
theorem ok_records_nodup (cfg : Config) (world : String → Option PageContent)
    (now fuel : Nat) :
    (((crawl cfg world now fuel).filter (fun r => r.status == "ok")).map
      (fun r => normalize r.url)).Nodup := by
  have hinv := crawlLoop_inv cfg world now
    (fun s => ((s.emitted.map (fun r => normalize r.url)).Nodup) ∧
              ∀ r ∈ s.emitted, normalize r.url ∈ s.visited)
    ?hskip ?hok ?herr fuel
    ⟨[(cfg.start_url, none, 0)], [], 0, []⟩ ⟨List.nodup_nil, fun r hr => absurd hr (List.not_mem_nil r)⟩
  · have hsub : List.Sublist
        (((crawl cfg world now fuel).filter (fun r => r.status == "ok")).map
          (fun r => normalize r.url))
        ((crawl cfg world now fuel).map (fun r => normalize r.url)) :=
      (List.filter_sublist _).map _
    exact List.Nodup.sublist hsub hinv.1
  case hskip =>
    intro u p d rest visited counter emitted _ _ hs
    exact hs
  case hok =>
    intro u p d rest visited counter emitted content _ hv _ hs
    constructor
    · show ((emitted ++ [okRecord content u p d now]).map (fun r => normalize r.url)).Nodup
      rw [List.map_append]
      apply nodup_append_singleton hs.1
      intro hmem
      obtain ⟨r, hr, hru⟩ := List.mem_map.mp hmem
      have hru' : normalize r.url = normalize u := hru
      exact hv (hru' ▸ hs.2 r hr)
    · intro r hr
      rcases List.mem_append.mp hr with h1 | h2
      · exact List.mem_cons_of_mem _ (hs.2 r h1)
      · rw [List.mem_singleton] at h2
        subst h2
        exact List.mem_cons_self _ _
  case herr =>
    intro u p d rest visited counter emitted _ hv _ hs
    constructor
    · show ((emitted ++ [errRecord u p d now "navigation error"]).map
          (fun r => normalize r.url)).Nodup
      rw [List.map_append]
      apply nodup_append_singleton hs.1
      intro hmem
      obtain ⟨r, hr, hru⟩ := List.mem_map.mp hmem
      have hru' : normalize r.url = normalize u := hru
      exact hv (hru' ▸ hs.2 r hr)
    · intro r hr
      rcases List.mem_append.mp hr with h1 | h2
      · exact List.mem_cons_of_mem _ (hs.2 r h1)
      · rw [List.mem_singleton] at h2
        subst h2
        exact List.mem_cons_self _ _

/-- C7: a frontier entry whose page load fails produces exactly one
`status=error` record with `error_msg` set and all content fields empty,
enqueues no children, and the loop continues on the remaining fuel with the
sibling entries still on the stack and the counter unchanged. -/
theorem crawl_failure_isolation (cfg : Config) (world : String → Option PageContent)
    (now fuel : Nat) (u : String) (p : Option String) (d : Nat) (rest : List Entry)
    (visited : List String) (counter : Nat) (emitted : List PageRecord)
    (hc : counter < cfg.max_pages) (hv : normalize u ∉ visited)
    (hw : world u = none) :
    crawlLoop cfg world now (fuel + 1) ⟨(u, p, d) :: rest, visited, counter, emitted⟩
      = crawlLoop cfg world now fuel
          ⟨rest, normalize u :: visited, counter,
            emitted ++ [errRecord u p d now "navigation error"]⟩
    ∧ (errRecord u p d now "navigation error").status = "error"
    ∧ (errRecord u p d now "navigation error").error_msg = some "navigation error"
    ∧ (errRecord u p d now "navigation error").full_text = ""
    ∧ (errRecord u p d now "navigation error").title = none
    ∧ (errRecord u p d now "navigation error").meta_description = none
    ∧ (errRecord u p d now "navigation error").headings = []
    ∧ (errRecord u p d now "navigation error").sections = []
    ∧ (errRecord u p d now "navigation error").paragraphs = []
    ∧ (errRecord u p d now "navigation error").tables = []
    ∧ (errRecord u p d now "navigation error").links_out = []
    ∧ (errRecord u p d now "navigation error").images = [] := by
  refine ⟨?_, rfl, rfl, rfl, rfl, rfl, rfl, rfl, rfl, rfl, rfl, rfl⟩
  simp [crawlLoop, hc, hv, hw, errNext]

/-- Witness for the C7 theorem at a concrete failing load with a sibling on
the stack. -/
theorem crawl_failure_isolation_witness :
    crawlLoop cfgW worldNone 0 (1 + 1)
        ⟨("https://ex.com/b", some "https://ex.com/a", 1) ::
            [("https://ex.com/c", some "https://ex.com/a", 1)], ["https://ex.com/a"], 1, []⟩
      = crawlLoop cfgW worldNone 0 1
          ⟨[("https://ex.com/c", some "https://ex.com/a", 1)],
            normalize "https://ex.com/b" :: ["https://ex.com/a"], 1,
            [] ++ [errRecord "https://ex.com/b" (some "https://ex.com/a") 1 0 "navigation error"]⟩ :=
  (crawl_failure_isolation cfgW worldNone 0 1 "https://ex.com/b"
    (some "https://ex.com/a") 1 [("https://ex.com/c", some "https://ex.com/a", 1)]
    ["https://ex.com/a"] 1 [] (by decide) (by decide) rfl).1

/-- C8: every emitted record without a `parent_url` has depth 0, and every
emitted record with a `parent_url` has the depth of a record emitted for that
parent URL plus one (depths are naturals, hence non-negative). -/
theorem crawl_depth_consistent (cfg : Config) (world : String → Option PageContent)
    (now fuel : Nat) (r : PageRecord) (hr : r ∈ crawl cfg world now fuel) :
    (r.parent_url = none → r.depth = 0) ∧
    (∀ q, r.parent_url = some q →
      ∃ r', r' ∈ crawl cfg world now fuel ∧ r'.url = q ∧ r.depth = r'.depth + 1) := by
  have hinv := crawlLoop_inv cfg world now
    (fun s =>
      (∀ e ∈ s.stack, (e.2.1 = none → e.2.2 = 0) ∧
        ∀ q, e.2.1 = some q → ∃ r', r' ∈ s.emitted ∧ r'.url = q ∧ e.2.2 = r'.depth + 1) ∧
      (∀ r0 ∈ s.emitted, (r0.parent_url = none → r0.depth = 0) ∧
        ∀ q, r0.parent_url = some q →
          ∃ r', r' ∈ s.emitted ∧ r'.url = q ∧ r0.depth = r'.depth + 1))
    ?hskip ?hok ?herr fuel
    ⟨[(cfg.start_url, none, 0)], [], 0, []⟩ ?hinit
  · exact hinv.2 r hr
  case hinit =>
    constructor
    · intro e he
      rw [List.mem_singleton] at he
      subst he
      exact ⟨fun _ => rfl, fun q hq => absurd hq (by simp)⟩
    · intro r0 hr0
      cases hr0
  case hskip =>
    intro u p d rest visited counter emitted _ _ hs
    exact ⟨fun e he => hs.1 e (List.mem_cons_of_mem _ he), hs.2⟩
  case hok =>
    intro u p d rest visited counter emitted content _ _ _ hs
    have hmono : ∀ r', r' ∈ emitted →
        r' ∈ emitted ++ [okRecord content u p d now] :=
      fun r' h => List.mem_append.mpr (Or.inl h)
    constructor
    · intro e he
      simp only [okNext] at he
      rcases List.mem_append.mp he with h1 | h2
      · by_cases hd : depthAllows cfg d = true
        · rw [if_pos hd] at h1
          unfold pushChildren at h1
          obtain ⟨l, _, rfl⟩ := List.mem_map.mp h1
          refine ⟨?_, ?_⟩
          · intro hcon
            exact Option.noConfusion hcon
          · intro q hq
            have hq' : u = q := by
              simpa using hq
            subst hq'
            exact ⟨okRecord content u p d now,
              List.mem_append.mpr (Or.inr (List.mem_singleton.mpr rfl)), rfl, rfl⟩
        · rw [if_neg hd] at h1
          cases h1
      · obtain ⟨hnone, hsome⟩ := hs.1 e (List.mem_cons_of_mem _ h2)
        refine ⟨hnone, fun q hq => ?_⟩
        obtain ⟨r', hr', hu, hdep⟩ := hsome q hq
        exact ⟨r', hmono r' hr', hu, hdep⟩
    · intro r0 hr0
      simp only [okNext] at hr0
      rcases List.mem_append.mp hr0 with h1 | h2
      · obtain ⟨hnone, hsome⟩ := hs.2 r0 h1
        refine ⟨hnone, fun q hq => ?_⟩
        obtain ⟨r', hr', hu, hdep⟩ := hsome q hq
        exact ⟨r', hmono r' hr', hu, hdep⟩
      · rw [List.mem_singleton] at h2
        subst h2
        obtain ⟨hnone, hsome⟩ := hs.1 (u, p, d) (List.mem_cons_self _ _)
        refine ⟨hnone, fun q hq => ?_⟩
        obtain ⟨r', hr', hu, hdep⟩ := hsome q hq
        exact ⟨r', hmono r' hr', hu, hdep⟩
  case herr =>
    intro u p d rest visited counter emitted _ _ _ hs
    have hmono : ∀ r', r' ∈ emitted →
        r' ∈ emitted ++ [errRecord u p d now "navigation error"] :=
      fun r' h => List.mem_append.mpr (Or.inl h)
    constructor
    · intro e he
      simp only [errNext] at he
      obtain ⟨hnone, hsome⟩ := hs.1 e (List.mem_cons_of_mem _ he)
      refine ⟨hnone, fun q hq => ?_⟩
      obtain ⟨r', hr', hu, hdep⟩ := hsome q hq
      exact ⟨r', hmono r' hr', hu, hdep⟩
    · intro r0 hr0
      simp only [errNext] at hr0
      rcases List.mem_append.mp hr0 with h1 | h2
      · obtain ⟨hnone, hsome⟩ := hs.2 r0 h1
        refine ⟨hnone, fun q hq => ?_⟩
        obtain ⟨r', hr', hu, hdep⟩ := hsome q hq
        exact ⟨r', hmono r' hr', hu, hdep⟩
      · rw [List.mem_singleton] at h2
        subst h2
        obtain ⟨hnone, hsome⟩ := hs.1 (u, p, d) (List.mem_cons_self _ _)
        refine ⟨hnone, fun q hq => ?_⟩
        obtain ⟨r', hr', hu, hdep⟩ := hsome q hq
        exact ⟨r', hmono r' hr', hu, hdep⟩

/-- Witness for the C8 theorem: in the `cfg3`/`world3` run the record for the
failed child page `https://ex.com/b` has a parent and depth one more than the
root record's. -/
theorem crawl_depth_consistent_witness :
    ((errRecord "https://ex.com/b" (some "https://ex.com/a") 1 0 "navigation error").parent_url
        = none →
      (errRecord "https://ex.com/b" (some "https://ex.com/a") 1 0 "navigation error").depth = 0) ∧
    (∀ q, (errRecord "https://ex.com/b" (some "https://ex.com/a") 1 0 "navigation error").parent_url
        = some q →
      ∃ r', r' ∈ crawl cfg3 world3 0 10 ∧ r'.url = q ∧
        (errRecord "https://ex.com/b" (some "https://ex.com/a") 1 0 "navigation error").depth
          = r'.depth + 1) :=
  crawl_depth_consistent cfg3 world3 0 10
    (errRecord "https://ex.com/b" (some "https://ex.com/a") 1 0 "navigation error") (by decide)

theorem writeAll_content (rs : List PageRecord) :
    ∀ h : DocHandle, h.wrote_any = true →
      (writeAll h rs).content = h.content ++ encodeTail rs ∧
      (writeAll h rs).wrote_any = true := by
  induction rs with
  | nil =>
      intro h hw
      exact ⟨(List.append_nil h.content).symm, hw⟩
  | cons r rs ih =>
      intro h hw
      have hstep : write_one_record h r
          = ⟨h.content ++ [JTok.comma] ++ [JTok.record r], true⟩ := by
        simp [write_one_record, hw]
      have := ih (write_one_record h r) (by rw [hstep])
      rw [hstep] at this
      refine ⟨?_, ?_⟩
      · show (writeAll (write_one_record h r) rs).content = h.content ++ encodeTail (r :: rs)
        rw [hstep, this.1]
        simp [encodeTail]
      · show (writeAll (write_one_record h r) rs).wrote_any = true
        rw [hstep]
        exact this.2

theorem parseTail_encodeTail (rs : List PageRecord) :
    parseTail (encodeTail rs ++ [JTok.rbrack]) = some rs := by
  induction rs with
  | nil => rfl
  | cons r rs ih =>
      show parseTail (JTok.comma :: JTok.record r :: (encodeTail rs ++ [JTok.rbrack])) = _
      rw [parseTail, ih]
      rfl

/-- C9: a document-sink file written by `open`, `n` `write` calls and `close`
parses as an array of exactly the `n` records written, in order; and the file
as it stands after the writes but before `close` is that array missing only
its closing delimiter, so it is recovered by appending the delimiter — never
corrupt mid-record. -/
theorem doc_sink_well_formed (rs : List PageRecord) :
    parseArray (docClose (writeAll docOpen rs)) = some rs ∧
    docClose (writeAll docOpen rs) = (writeAll docOpen rs).content ++ [JTok.rbrack] ∧
    parseArray ((writeAll docOpen rs).content ++ [JTok.rbrack]) = some rs := by
  have hmain : parseArray (docClose (writeAll docOpen rs)) = some rs := by
    cases rs with
    | nil => rfl
    | cons r rs =>
        have hstep : write_one_record docOpen r
            = ⟨[JTok.lbrack, JTok.record r], true⟩ := by
          simp [write_one_record, docOpen]
        have hrest := writeAll_content rs (write_one_record docOpen r) (by rw [hstep])
        show parseArray (docClose (writeAll (write_one_record docOpen r) rs)) = _
        unfold docClose
        rw [hrest.1, hstep]
        show parseArray
            (JTok.lbrack :: JTok.record r :: (encodeTail rs ++ [JTok.rbrack])) = _
        rw [parseArray, parseTail_encodeTail]
        rfl
  exact ⟨hmain, rfl, hmain⟩

/- ### Relational upsert sink: key semantics -/

theorem keyMatches_iff (sp u : String) (row : DbRow) :
    keyMatches sp u row = true ↔ rowKey row = (sp, u) := by
  simp [keyMatches, rowKey, Prod.ext_iff]

theorem map_congr_mem {α β : Type} {f g : α → β} :
    ∀ {l : List α}, (∀ a ∈ l, f a = g a) → l.map f = l.map g
  | [], _ => rfl
  | a :: l, h => by
      simp only [List.map_cons]
      rw [h a (List.mem_cons_self _ _),
        map_congr_mem (fun x hx => h x (List.mem_cons_of_mem _ hx))]

theorem any_keyMatches_iff (t : List DbRow) (sp u : String) :
    t.any (keyMatches sp u) = true ↔ HasKey t (sp, u) := by
  rw [List.any_eq_true]
  constructor
  · rintro ⟨row, hrow, hm⟩
    exact ⟨row, hrow, (keyMatches_iff sp u row).mp hm⟩
  · rintro ⟨row, hrow, hk⟩
    exact ⟨row, hrow, (keyMatches_iff sp u row).mpr hk⟩

theorem upsert_of_present {t : List DbRow} {sp : String} {r : PageRecord}
    (h : HasKey t (sp, r.url)) :
    upsert t sp r
      = t.map (fun row => if keyMatches sp r.url row then ⟨sp, r⟩ else row) := by
  unfold upsert
  rw [if_pos ((any_keyMatches_iff t sp r.url).mpr h)]

theorem upsert_of_absent {t : List DbRow} {sp : String} {r : PageRecord}
    (h : ¬ HasKey t (sp, r.url)) :
    upsert t sp r = t ++ [⟨sp, r⟩] := by
  unfold upsert
  rw [if_neg (fun hc => h ((any_keyMatches_iff t sp r.url).mp hc))]

theorem rowKey_overwrite (sp : String) (r : PageRecord) (row : DbRow) :
    rowKey (if keyMatches sp r.url row then ⟨sp, r⟩ else row) = rowKey row := by
  by_cases hm : keyMatches sp r.url row = true
  · rw [if_pos hm, (keyMatches_iff sp r.url row).mp hm]
    rfl
  · rw [if_neg hm]

theorem upsert_uniqueKeys {t : List DbRow} {sp : String} {r : PageRecord}
    (ht : UniqueKeys t) : UniqueKeys (upsert t sp r) := by
  by_cases h : HasKey t (sp, r.url)
  · rw [upsert_of_present h]
    unfold UniqueKeys
    rw [List.map_map]
    have : t.map (rowKey ∘ fun row => if keyMatches sp r.url row then ⟨sp, r⟩ else row)
        = t.map rowKey :=
      map_congr_mem (fun row _ => rowKey_overwrite sp r row)
    rw [this]
    exact ht
  · rw [upsert_of_absent h]
    unfold UniqueKeys
    rw [List.map_append]
    apply nodup_append_singleton ht
    intro hmem
    obtain ⟨row, hrow, hk⟩ := List.mem_map.mp hmem
    exact h ⟨row, hrow, hk⟩

theorem upsert_mem_self (t : List DbRow) (sp : String) (r : PageRecord) :
    DbRow.mk sp r ∈ upsert t sp r := by
  by_cases h : HasKey t (sp, r.url)
  · rw [upsert_of_present h]
    obtain ⟨row, hrow, hk⟩ := h
    apply List.mem_map.mpr
    refine ⟨row, hrow, ?_⟩
    rw [if_pos ((keyMatches_iff sp r.url row).mpr hk)]
  · rw [upsert_of_absent h]
    exact List.mem_append.mpr (Or.inr (List.mem_singleton.mpr rfl))

theorem upsert_key_unique_row {t : List DbRow} {sp : String} {r : PageRecord} :
    ∀ row ∈ upsert t sp r, rowKey row = (sp, r.url) → row = DbRow.mk sp r := by
  intro row hrow hk
  by_cases h : HasKey t (sp, r.url)
  · rw [upsert_of_present h] at hrow
    obtain ⟨row0, hrow0, heq⟩ := List.mem_map.mp hrow
    by_cases hm : keyMatches sp r.url row0 = true
    · rw [if_pos hm] at heq
      exact heq.symm
    · rw [if_neg hm] at heq
      rw [← heq] at hk
      exact absurd ((keyMatches_iff sp r.url row0).mpr hk) hm
  · rw [upsert_of_absent h] at hrow
    rcases List.mem_append.mp hrow with h1 | h2
    · exact absurd ⟨row, h1, hk⟩ h
    · exact List.mem_singleton.mp h2

theorem upsert_length_present {t : List DbRow} {sp : String} {r : PageRecord}
    (h : HasKey t (sp, r.url)) : (upsert t sp r).length = t.length := by
  rw [upsert_of_present h, List.length_map]

theorem upsert_length_absent {t : List DbRow} {sp : String} {r : PageRecord}
    (h : ¬ HasKey t (sp, r.url)) : (upsert t sp r).length = t.length + 1 := by
  rw [upsert_of_absent h, List.length_append, List.length_singleton]

theorem upsert_hasKey_mono {t : List DbRow} {sp : String} {r : PageRecord}
    {k : String × String} (h : HasKey t k) : HasKey (upsert t sp r) k := by
  obtain ⟨row, hrow, hk⟩ := h
  by_cases hp : HasKey t (sp, r.url)
  · rw [upsert_of_present hp]
    exact ⟨_, List.mem_map.mpr ⟨row, hrow, rfl⟩, by rw [rowKey_overwrite, hk]⟩
  · rw [upsert_of_absent hp]
    exact ⟨row, List.mem_append.mpr (Or.inl hrow), hk⟩

theorem upsert_hasKey_self (t : List DbRow) (sp : String) (r : PageRecord) :
    HasKey (upsert t sp r) (sp, r.url) :=
  ⟨DbRow.mk sp r, upsert_mem_self t sp r, rfl⟩

theorem runUpsert_hasKey_mono {sp : String} {k : String × String} :
    ∀ (rs : List PageRecord) (t : List DbRow), HasKey t k → HasKey (runUpsert t sp rs) k
  | [], _, h => h
  | r :: rs, t, h => runUpsert_hasKey_mono rs (upsert t sp r) (upsert_hasKey_mono h)

theorem runUpsert_covers {sp : String} :
    ∀ (rs : List PageRecord) (t : List DbRow) (r : PageRecord), r ∈ rs →
      HasKey (runUpsert t sp rs) (sp, r.url) := by
  intro rs
  induction rs with
  | nil =>
      intro t r hr
      cases hr
  | cons r0 rs ih =>
      intro t r hr
      rcases List.mem_cons.mp hr with h1 | h2
      · subst h1
        exact runUpsert_hasKey_mono rs (upsert t sp r) (upsert_hasKey_self t sp r)
      · exact ih (upsert t sp r0) r h2

theorem runUpsert_uniqueKeys {sp : String} :
    ∀ (rs : List PageRecord) (t : List DbRow), UniqueKeys t → UniqueKeys (runUpsert t sp rs)
  | [], _, h => h
  | _ :: rs, _, h => runUpsert_uniqueKeys rs _ (upsert_uniqueKeys h)

theorem runUpsert_length_stable {sp : String} :
    ∀ (rs : List PageRecord) (t : List DbRow),
      (∀ r ∈ rs, HasKey t (sp, r.url)) → (runUpsert t sp rs).length = t.length := by
  intro rs
  induction rs with
  | nil =>
      intro _ _
      rfl
  | cons r0 rs ih =>
      intro t h
      show (runUpsert (upsert t sp r0) sp rs).length = t.length
      rw [ih (upsert t sp r0)
        (fun r hr => upsert_hasKey_mono (h r (List.mem_cons_of_mem _ hr)))]
      exact upsert_length_present (h r0 (List.mem_cons_self _ _))

/-- C1: durable relational storage holds at most one row per
`(scope_prefix, url)`: an upsert of a new key appends exactly one row, an
upsert of an existing key overwrites every non-key column of the one row with
that key (including `crawled_at` and `status`, so a later error overwrites an
earlier ok row) without changing the row count, key-uniqueness is preserved,
and replaying the same record sequence leaves the row count unchanged while
every upserted key is present exactly once. -/
theorem upsert_key_semantics (t : List DbRow) (sp : String) (r : PageRecord)
    (rs : List PageRecord) (ht : UniqueKeys t) :
    UniqueKeys (upsert t sp r)
    ∧ DbRow.mk sp r ∈ upsert t sp r
    ∧ (∀ row ∈ upsert t sp r, rowKey row = (sp, r.url) → row = DbRow.mk sp r)
    ∧ (HasKey t (sp, r.url) → (upsert t sp r).length = t.length)
    ∧ (¬ HasKey t (sp, r.url) → (upsert t sp r).length = t.length + 1)
    ∧ UniqueKeys (runUpsert (runUpsert t sp rs) sp rs)
    ∧ (runUpsert (runUpsert t sp rs) sp rs).length = (runUpsert t sp rs).length
    ∧ (∀ r0 ∈ rs, HasKey (runUpsert (runUpsert t sp rs) sp rs) (sp, r0.url)) :=
  ⟨upsert_uniqueKeys ht,
   upsert_mem_self t sp r,
   upsert_key_unique_row,
   fun h => upsert_length_present h,
   fun h => upsert_length_absent h,
   runUpsert_uniqueKeys rs _ (runUpsert_uniqueKeys rs t ht),
   runUpsert_length_stable rs _ (fun r0 h => runUpsert_covers rs t r0 h),
   fun r0 h => runUpsert_covers rs _ r0 h⟩

/-- Witness for the C1 theorem on the empty table with a concrete record. -/
theorem upsert_key_semantics_witness :
    UniqueKeys (upsert [] "https://library.sjsu.edu" sampleRec)
    ∧ (upsert [] "https://library.sjsu.edu" sampleRec).length = 0 + 1 :=
  ⟨(upsert_key_semantics [] "https://library.sjsu.edu" sampleRec
      [sampleRec, sampleRecErr] List.nodup_nil).1,
   (upsert_key_semantics [] "https://library.sjsu.edu" sampleRec
      [sampleRec, sampleRecErr] List.nodup_nil).2.2.2.2.1 (by rintro ⟨row, h, _⟩; cases h)⟩

/- ### Relational schema: column set and NOT NULL discipline -/

/-- C2 (counterexample): the column set of `schema.sql` is not the column set
the design document states: the six document-valued columns are declared
`JSONB`, while the document says `JSON`. -/
theorem crawl_pages_types_differ_from_spec :
    crawl_pages_columns.map (fun c => (c.name, c.ctype)) ≠ spec_stated_columns := by
  decide

/-- C2 (amended): the table `crawl_pages` has exactly the sixteen stated
columns in order with types TEXT, INT, TIMESTAMPTZ and JSONB (not JSON),
primary key `(scope_prefix, url)`, and secondary indexes on
`(scope_prefix, depth)` and `(scope_prefix, parent_url)`. -/
theorem crawl_pages_schema_exact :
    crawl_pages_columns.map (fun c => (c.name, c.ctype))
      = [("scope_prefix", SqlType.text), ("url", SqlType.text),
         ("parent_url", SqlType.text), ("depth", SqlType.int),
         ("crawled_at", SqlType.timestamptz), ("title", SqlType.text),
         ("meta_description", SqlType.text), ("full_text", SqlType.text),
         ("headings", SqlType.jsonb), ("sections", SqlType.jsonb),
         ("paragraphs", SqlType.jsonb), ("tables", SqlType.jsonb),
         ("links_out", SqlType.jsonb), ("images", SqlType.jsonb),
         ("status", SqlType.text), ("error_msg", SqlType.text)]
    ∧ crawl_pages_primary_key = ["scope_prefix", "url"]
    ∧ crawl_pages_indexes = [["scope_prefix", "depth"], ["scope_prefix", "parent_url"]] := by
  exact ⟨rfl, rfl, rfl⟩

theorem acceptsRow_notNull_slot :
    ∀ (cols : List ColumnDef) (vals : List (Option String)) (i : Nat) (c : ColumnDef),
      acceptsRow cols vals = true → cols.get? i = some c → c.notNull = true →
      ∃ v, vals.get? i = some (some v) := by
  intro cols
  induction cols with
  | nil =>
      intro vals i c _ hget _
      simp at hget
  | cons c0 cols ih =>
      intro vals i c hacc hget hnn
      cases vals with
      | nil =>
          exfalso
          unfold acceptsRow at hacc
          simp at hacc
      | cons v0 vals =>
          unfold acceptsRow at hacc
          rw [Bool.and_eq_true] at hacc
          obtain ⟨hlen, hall⟩ := hacc
          rw [List.zip_cons_cons, List.all_cons, Bool.and_eq_true] at hall
          obtain ⟨hhead, htail⟩ := hall
          cases i with
          | zero =>
              have hc : c0 = c := by
                rw [List.get?_cons_zero] at hget
                exact Option.some.inj hget
              subst hc
              rw [hnn] at hhead
              simp only [Bool.not_true, Bool.false_or] at hhead
              obtain ⟨v, hv⟩ := Option.isSome_iff_exists.mp hhead
              exact ⟨v, by rw [List.get?_cons_zero, hv]⟩
          | succ i =>
              rw [List.get?_cons_succ] at hget
              refine ih vals i c ?_ hget hnn
              unfold acceptsRow
              rw [Bool.and_eq_true]
              refine ⟨?_, htail⟩
              simp only [List.length_cons] at hlen
              rw [Nat.beq_eq_true_eq] at hlen
              rw [Nat.beq_eq_true_eq]
              omega

/-- C10: in `crawl_pages` exactly the columns `scope_prefix`, `url`, `depth`
and `crawled_at` are declared NOT NULL and every other column (including
`parent_url`, `status`, `error_msg` and the content columns) is nullable; a
root row with NULL `parent_url` is accepted, every accepted row carries a
`url`, a `depth` and a `crawled_at`, and a row lacking any of those three is
rejected. -/
theorem crawl_pages_not_null_discipline :
    (crawl_pages_columns.filter (fun c => c.notNull)).map (fun c => c.name)
        = ["scope_prefix", "url", "depth", "crawled_at"]
    ∧ (crawl_pages_columns.filter (fun c => !c.notNull)).map (fun c => c.name)
        = ["parent_url", "title", "meta_description", "full_text", "headings",
           "sections", "paragraphs", "tables", "links_out", "images",
           "status", "error_msg"]
    ∧ acceptsRow crawl_pages_columns exampleRootRow = true
    ∧ (∀ vals, acceptsRow crawl_pages_columns vals = true →
        (∃ v, vals.get? 1 = some (some v))
        ∧ (∃ v, vals.get? 3 = some (some v))
        ∧ (∃ v, vals.get? 4 = some (some v)))
    ∧ acceptsRow crawl_pages_columns (exampleRootRow.set 1 none) = false
    ∧ acceptsRow crawl_pages_columns (exampleRootRow.set 3 none) = false
    ∧ acceptsRow crawl_pages_columns (exampleRootRow.set 4 none) = false := by
  refine ⟨by decide, by decide, by decide, ?_, by decide, by decide, by decide⟩
  intro vals hacc
  exact ⟨acceptsRow_notNull_slot crawl_pages_columns vals 1 _ hacc rfl rfl,
    acceptsRow_notNull_slot crawl_pages_columns vals 3 _ hacc rfl rfl,
    acceptsRow_notNull_slot crawl_pages_columns vals 4 _ hacc rfl rfl⟩

/-- Witness for the C10 theorem: the accepted root row indeed carries `url`,
`depth` and `crawled_at` values. -/
theorem crawl_pages_not_null_discipline_witness :
    (∃ v, exampleRootRow.get? 1 = some (some v))
    ∧ (∃ v, exampleRootRow.get? 3 = some (some v))
    ∧ (∃ v, exampleRootRow.get? 4 = some (some v)) :=
  crawl_pages_not_null_discipline.2.2.2.1 exampleRootRow (by decide)

end Crawler
